import Mathlib

/-!
Verification development for the go-virtual API virtualization gateway.

Each Go source function referenced by the development is embedded as an
executable Lean definition.  Go strings are Lean `String`s (scans work on
`String.data`); Go `int` is `Int`; Go maps are association lists whose list
order stands for the (unspecified) map iteration order.  Calls into external
libraries (regexp compilation, gjson, strconv.ParseFloat, RNG draws,
time formatting) are modelled as oracle parameters threaded through the
definitions, so every theorem quantifies over their behaviour.
-/

namespace GoVirtual

/-! ## String helpers (models of Go `strings` primitives) -/

/-- Model of byte-wise prefix test (`strings.HasPrefix`), on char lists. -/
def isPre : List Char → List Char → Bool
  | [], _ => true
  | _ :: _, [] => false
  | p :: ps, c :: cs => p == c && isPre ps cs

/-- Model of `strings.Contains s sub`. -/
def hasSub (sub s : List Char) : Bool :=
  match s with
  | [] => sub.isEmpty
  | _ :: t => isPre sub s || hasSub sub t

/-- Model of `strings.HasSuffix`. -/
def isSuf (suffix s : List Char) : Bool :=
  isPre suffix.reverse s.reverse

/-- Model of Go string comparison `a < b` / `a > b` collapsed to a sign:
byte-wise lexicographic order (UTF-8 byte order equals code-point order). -/
def lexCmp : List Char → List Char → Int
  | [], [] => 0
  | [], _ :: _ => -1
  | _ :: _, [] => 1
  | a :: as, b :: bs =>
    if a.toNat < b.toNat then -1
    else if b.toNat < a.toNat then 1
    else lexCmp as bs

/-- Model of `strings.EqualFold` restricted to simple case folding. -/
def eqFoldChars : List Char → List Char → Bool
  | [], [] => true
  | a :: as, b :: bs => (a.toLower == b.toLower) && eqFoldChars as bs
  | _, _ => false

/-- String-level wrapper for `strings.EqualFold`. -/
def strEqFold (a b : String) : Bool := eqFoldChars a.data b.data

/-- String-level wrapper for `strings.HasPrefix`. -/
def strStarts (s pre : String) : Bool := isPre pre.data s.data

/-- String-level wrapper for `strings.HasSuffix`. -/
def strEnds (s suffix : String) : Bool := isSuf suffix.data s.data

/-- String-level wrapper for `strings.Contains`. -/
def strHas (s sub : String) : Bool := hasSub sub.data s.data

/-! ## Condition evaluator (internal/condition) -/

/-- Embeds `models.Condition`: source, key, operator and expected value. -/
structure Condition where
  source : String
  key : String
  operator : String
  value : String
  deriving Repr, DecidableEq

/-- Embeds `condition.RequestData`; the maps become association lists whose
order stands for Go map iteration order. -/
structure RequestData where
  pathParams : List (String × String)
  queryParams : List (String × List String)
  headers : List (String × List String)
  body : String

/-- Oracles for the external libraries used by the evaluator:
`regexp.Compile` (a successfully compiled pattern is a string predicate),
`gjson.Get` (`none` models `!result.Exists()`), and `strconv.ParseFloat`
(the rational value of the parsed 64-bit float, `none` on parse error). -/
structure Ext where
  regexCompile : String → Option (String → Bool)
  jsonGet : String → String → Option String
  parseFloat : String → Option ℚ

/-- Map index `data.PathParams[key]` (zero value "" when absent). -/
def lookupPath (m : List (String × String)) (k : String) : String :=
  match m.find? (fun p => p.1 == k) with
  | some p => p.2
  | none => ""

/-- Lookup with Go's `ok && len(vals) > 0` guard used for query params. -/
def lookupQuery (m : List (String × List String)) (k : String) : String :=
  match m.find? (fun p => p.1 == k) with
  | some p => if p.2.isEmpty then "" else p.2.headD ""
  | none => ""

/-- Header scan: first map entry whose key `EqualFold`s `k` and is nonempty. -/
def lookupHeaderFold (m : List (String × List String)) (k : String) : String :=
  match m with
  | [] => ""
  | p :: rest =>
    if strEqFold p.1 k && !p.2.isEmpty then p.2.headD ""
    else lookupHeaderFold rest k

/-- Embeds `Evaluator.extractValue` (evaluator source, lines 750-777). -/
def extractValue (ext : Ext) (source key : String) (data : RequestData) : String :=
  if source = "path" then lookupPath data.pathParams key
  else if source = "query" then lookupQuery data.queryParams key
  else if source = "header" then lookupHeaderFold data.headers key
  else if source = "body" then
    match ext.jsonGet data.body key with
    | some v => v
    | none => ""
  else ""

/-- Embeds `compareNumeric` (evaluator source, lines 819-839): parse both
sides as 64-bit floats; on either error fall back to string order. -/
def compareNumeric (ext : Ext) (a b : String) : Int :=
  match ext.parseFloat a, ext.parseFloat b with
  | some x, some y => if x < y then -1 else if y < x then 1 else 0
  | some _, none => lexCmp a.data b.data
  | none, _ => lexCmp a.data b.data

/-- Embeds `Evaluator.compare` (evaluator source, lines 780-815). -/
def compare (ext : Ext) (actual operator expected : String) : Bool :=
  if operator = "eq" then actual == expected
  else if operator = "ne" then actual != expected
  else if operator = "contains" then strHas actual expected
  else if operator = "notContains" then !strHas actual expected
  else if operator = "startsWith" then strStarts actual expected
  else if operator = "endsWith" then strEnds actual expected
  else if operator = "regex" then
    match ext.regexCompile expected with
    | some matcher => matcher actual
    | none => false
  else if operator = "exists" then actual != ""
  else if operator = "notExists" then actual == ""
  else if operator = "gt" then decide (0 < compareNumeric ext actual expected)
  else if operator = "lt" then decide (compareNumeric ext actual expected < 0)
  else if operator = "gte" then decide (0 ≤ compareNumeric ext actual expected)
  else if operator = "lte" then decide (compareNumeric ext actual expected ≤ 0)
  else false

/-- Embeds `Evaluator.Evaluate`. -/
def evaluate (ext : Ext) (cond : Condition) (data : RequestData) : Bool :=
  compare ext (extractValue ext cond.source cond.key data) cond.operator cond.value

/-- Embeds `Evaluator.EvaluateAll`: AND over the list, vacuously true. -/
def evaluateAll (ext : Ext) (conds : List Condition) (data : RequestData) : Bool :=
  conds.all (fun c => evaluate ext c data)

/-- Concrete oracle where every external call fails / misses. -/
def extNone : Ext :=
  { regexCompile := fun _ => none
    jsonGet := fun _ _ => none
    parseFloat := fun _ => none }

/-- Empty request. -/
def emptyData : RequestData :=
  { pathParams := [], queryParams := [], headers := [], body := "" }

/-! ## Response rules, the store's fetch, and the engine's selection -/

/-- Embeds `models.ResponseConfig`. -/
structure ResponseConfig where
  id : String
  operationID : String
  name : String
  priority : Int
  conditions : List Condition
  statusCode : Int
  headers : List (String × String)
  body : String
  delay : Int
  enabled : Bool
  deriving Repr, DecidableEq

/-- One step of the `sort.Slice` comparator `Priority < Priority` realised as
sorted insertion; the resulting list is nondecreasing in priority and a
permutation of the input, which is all `sort.Slice` (an unstable sort over an
arbitrarily iterated map) guarantees. -/
def insertByPriority (c : ResponseConfig) : List ResponseConfig → List ResponseConfig
  | [] => [c]
  | d :: ds => if c.priority < d.priority then c :: d :: ds else d :: insertByPriority c ds

/-- Priority sort used by `GetResponseConfigsByOperation`. -/
def sortByPriority : List ResponseConfig → List ResponseConfig
  | [] => []
  | c :: cs => insertByPriority c (sortByPriority cs)

/-- Embeds `MemoryStorage.GetResponseConfigsByOperation`
(internal/storage/memory.go, lines 242-259): collect the configs whose
`OperationID` matches while ranging over the `responseConfigs` map — the input
list order stands for the unspecified map iteration order — then sort by
priority. -/
def getResponseConfigsByOperation (cfgs : List ResponseConfig) (opID : String) :
    List ResponseConfig :=
  sortByPriority (cfgs.filter (fun c => c.operationID == opID))

/-- Embeds the selection loop of `Engine.ServeHTTP`
(internal/proxy/engine.go, lines 177-188): walk the fetched list, skip
disabled configs, stop at the first whose conditions all evaluate true. -/
def findMatchingConfig (ext : Ext) (data : RequestData) :
    List ResponseConfig → Option ResponseConfig
  | [] => none
  | c :: cs =>
    if c.enabled && evaluateAll ext c.conditions data then some c
    else findMatchingConfig ext data cs

/-! ## Dispatch outcome after a route has matched (internal/proxy/engine.go) -/

/-- Embeds `models.ExampleResponse`. -/
structure ExampleResponse where
  statusCode : Int
  headers : List (String × String)
  body : String
  deriving Repr, DecidableEq

/-- Embeds the fields of `models.Operation` used by the dispatcher. -/
structure Operation where
  id : String
  specID : String
  method : String
  path : String
  fullPath : String
  exampleResponse : Option ExampleResponse
  deriving Repr, DecidableEq

/-- Embeds the fields of `models.Spec` used by the dispatcher. -/
structure Spec where
  id : String
  name : String
  basePath : String
  enabled : Bool
  tracing : Bool
  useExampleFallback : Bool
  deriving Repr, DecidableEq

/-- Outcome of `ServeHTTP` once a route has matched: a configured rule
response, the operation's embedded example, or the fixed 404 error body. -/
inductive DispatchResult where
  | ruleResponse (cfg : ResponseConfig)
  | exampleResponse (ex : ExampleResponse)
  | noMatch404 (body : String)
  deriving Repr, DecidableEq

/-- The fixed JSON error body written by `ServeHTTP` (engine.go, line 254). -/
def noMatchBody : String :=
  "\x7b\"error\": \"No matching response configuration and no example in spec\"\x7d"

/-- Embeds the decision structure of `Engine.ServeHTTP` after route matching
(engine.go, lines 174-256): fetch the configs for the operation (`storeErr`
models a non-nil store error, which skips the selection loop), pick the first
enabled matching config; when none matched serve the operation's example
response when one exists, else the fixed 404.  Note: the code never consults
`sp.useExampleFallback`. -/
def dispatchAfterRoute (ext : Ext) (sp : Spec) (op : Operation) (storeErr : Bool)
    (cfgs : List ResponseConfig) (data : RequestData) : DispatchResult :=
  let fetched := getResponseConfigsByOperation cfgs op.id
  let matched := if storeErr then none else findMatchingConfig ext data fetched
  match matched with
  | some cfg => .ruleResponse cfg
  | none =>
    match op.exampleResponse with
    | some ex =>
      let _ := sp
      .exampleResponse ex
    | none => .noMatch404 noMatchBody

/-! ## Sorting and selection lemmas -/

theorem insertByPriority_perm (c : ResponseConfig) (l : List ResponseConfig) :
    (insertByPriority c l).Perm (c :: l) := by
  induction l with
  | nil => simp [insertByPriority]
  | cons d ds ih =>
    by_cases h : c.priority < d.priority
    · simp [insertByPriority, h]
    · simp only [insertByPriority, if_neg h]
      exact (ih.cons d).trans (List.Perm.swap c d ds)

theorem sortByPriority_perm (l : List ResponseConfig) :
    (sortByPriority l).Perm l := by
  induction l with
  | nil => simp [sortByPriority]
  | cons c cs ih =>
    exact (insertByPriority_perm c (sortByPriority cs)).trans (ih.cons c)

theorem insertByPriority_pairwise (c : ResponseConfig) (l : List ResponseConfig)
    (h : l.Pairwise (fun a b => a.priority ≤ b.priority)) :
    (insertByPriority c l).Pairwise (fun a b => a.priority ≤ b.priority) := by
  induction l with
  | nil => simp [insertByPriority]
  | cons d ds ih =>
    rw [List.pairwise_cons] at h
    obtain ⟨hd, hds⟩ := h
    by_cases hc : c.priority < d.priority
    · simp only [insertByPriority, if_pos hc]
      rw [List.pairwise_cons]
      refine ⟨?_, List.pairwise_cons.mpr ⟨hd, hds⟩⟩
      intro b hb
      rcases List.mem_cons.mp hb with rfl | hbm
      · omega
      · have := hd b hbm
        omega
    · simp only [insertByPriority, if_neg hc]
      rw [List.pairwise_cons]
      refine ⟨?_, ih hds⟩
      intro b hb
      have hb' : b ∈ c :: ds := (insertByPriority_perm c ds).mem_iff.mp hb
      rcases List.mem_cons.mp hb' with rfl | hbm
      · omega
      · exact hd b hbm

theorem sortByPriority_pairwise (l : List ResponseConfig) :
    (sortByPriority l).Pairwise (fun a b => a.priority ≤ b.priority) := by
  induction l with
  | nil => simp [sortByPriority]
  | cons c cs ih => exact insertByPriority_pairwise c (sortByPriority cs) ih

theorem findMatchingConfig_some (ext : Ext) (data : RequestData)
    {l : List ResponseConfig} {c : ResponseConfig}
    (h : findMatchingConfig ext data l = some c) :
    c ∈ l ∧ c.enabled = true ∧ evaluateAll ext c.conditions data = true := by
  induction l with
  | nil => simp [findMatchingConfig] at h
  | cons d ds ih =>
    by_cases hg : (d.enabled && evaluateAll ext d.conditions data) = true
    · rw [findMatchingConfig, if_pos hg] at h
      obtain ⟨h1, h2⟩ : d.enabled = true ∧ evaluateAll ext d.conditions data = true := by
        simpa using hg
      cases h
      exact ⟨List.mem_cons_self _ _, h1, h2⟩
    · rw [findMatchingConfig, if_neg hg] at h
      obtain ⟨hm, he, hev⟩ := ih h
      exact ⟨List.mem_cons_of_mem d hm, he, hev⟩

theorem findMatchingConfig_min (ext : Ext) (data : RequestData)
    {l : List ResponseConfig} {c : ResponseConfig}
    (hp : l.Pairwise (fun a b => a.priority ≤ b.priority))
    (h : findMatchingConfig ext data l = some c) :
    ∀ c' ∈ l, c'.enabled = true → evaluateAll ext c'.conditions data = true →
      c.priority ≤ c'.priority := by
  induction l with
  | nil => simp [findMatchingConfig] at h
  | cons d ds ih =>
    rw [List.pairwise_cons] at hp
    obtain ⟨hd, hds⟩ := hp
    intro c' hc' he hev
    by_cases hg : (d.enabled && evaluateAll ext d.conditions data) = true
    · rw [findMatchingConfig, if_pos hg] at h
      cases h
      rcases List.mem_cons.mp hc' with rfl | hm
      · exact le_refl _
      · exact hd c' hm
    · rw [findMatchingConfig, if_neg hg] at h
      rcases List.mem_cons.mp hc' with rfl | hm
      · exact absurd (by simp [he, hev]) hg
      · exact ih hds h c' hm he hev

theorem findMatchingConfig_none (ext : Ext) (data : RequestData)
    {l : List ResponseConfig}
    (h : findMatchingConfig ext data l = none) :
    ∀ c' ∈ l, c'.enabled = true → evaluateAll ext c'.conditions data = false := by
  induction l with
  | nil => intro c' hc'; simp at hc'
  | cons d ds ih =>
    by_cases hg : (d.enabled && evaluateAll ext d.conditions data) = true
    · rw [findMatchingConfig, if_pos hg] at h
      cases h
    · rw [findMatchingConfig, if_neg hg] at h
      intro c' hc' he
      rcases List.mem_cons.mp hc' with rfl | hm
      · rcases Bool.eq_false_or_eq_true (evaluateAll ext c'.conditions data) with ht | hf
        · exact absurd (by simp [he, ht]) hg
        · exact hf
      · exact ih h c' hm he

/-- Claim C2: for every matched operation and every rule set fetched from the
Store, the selection returns an enabled rule whose conditions all hold and
whose priority is least among the enabled satisfied rules for that operation,
or none when no enabled rule's conditions hold; disabled rules are never
selected. -/
theorem c2_rule_selection (ext : Ext) (cfgs : List ResponseConfig) (opID : String)
    (data : RequestData) :
    (∀ c, findMatchingConfig ext data (getResponseConfigsByOperation cfgs opID) = some c →
        c ∈ cfgs ∧ c.operationID = opID ∧ c.enabled = true ∧
          evaluateAll ext c.conditions data = true ∧
          ∀ c' ∈ cfgs, c'.operationID = opID → c'.enabled = true →
            evaluateAll ext c'.conditions data = true → c.priority ≤ c'.priority) ∧
    (findMatchingConfig ext data (getResponseConfigsByOperation cfgs opID) = none →
        ∀ c' ∈ cfgs, c'.operationID = opID → c'.enabled = true →
          evaluateAll ext c'.conditions data = false) := by
  have hperm := sortByPriority_perm (cfgs.filter (fun c => c.operationID == opID))
  have hpair := sortByPriority_pairwise (cfgs.filter (fun c => c.operationID == opID))
  constructor
  · intro c h
    rw [getResponseConfigsByOperation] at h
    obtain ⟨hmem, hen, hev⟩ := findMatchingConfig_some ext data h
    have hmf : c ∈ cfgs.filter (fun c => c.operationID == opID) := hperm.mem_iff.mp hmem
    obtain ⟨hmc, hop⟩ := List.mem_filter.mp hmf
    refine ⟨hmc, by simpa using hop, hen, hev, ?_⟩
    intro c' hc' hop' hen' hev'
    have hcf : c' ∈ cfgs.filter (fun c => c.operationID == opID) :=
      List.mem_filter.mpr ⟨hc', by simp [hop']⟩
    exact findMatchingConfig_min ext data hpair h c' (hperm.mem_iff.mpr hcf) hen' hev'
  · intro h c' hc' hop' hen'
    rw [getResponseConfigsByOperation] at h
    have hcf : c' ∈ cfgs.filter (fun c => c.operationID == opID) :=
      List.mem_filter.mpr ⟨hc', by simp [hop']⟩
    exact findMatchingConfig_none ext data h c' (hperm.mem_iff.mpr hcf) hen'

/-- First of two equal-priority enabled rules (the earlier-inserted one). -/
def cfgA : ResponseConfig :=
  { id := "A", operationID := "op", name := "A", priority := 0, conditions := [],
    statusCode := 200, headers := [], body := "", delay := 0, enabled := true }

/-- Second of two equal-priority enabled rules (the later-inserted one). -/
def cfgB : ResponseConfig :=
  { id := "B", operationID := "op", name := "B", priority := 0, conditions := [],
    statusCode := 418, headers := [], body := "", delay := 0, enabled := true }

/-- Witness for C2 at a concrete input: the single enabled rule is selected
with its own (least) priority. -/
theorem c2_rule_selection_witness :
    cfgA.enabled = true ∧ cfgA.priority ≤ cfgA.priority := by
  have h := (c2_rule_selection extNone [cfgA] "op" emptyData).1 cfgA (by decide)
  exact ⟨h.2.2.1, h.2.2.2.2 cfgA (List.mem_cons_self _ _) rfl h.2.2.1 h.2.2.2.1⟩

/-- Counterexample to claim C3: `cfgA` and `cfgB` are enabled, condition-free
and share priority 0, and `cfgA` was inserted before `cfgB`; even with the
store map iterated in insertion order `[cfgA, cfgB]`, the fetch (an unstable
priority sort over an unordered map) followed by the selection loop picks the
later-inserted `cfgB` — ties in priority are not broken by insertion order. -/
theorem c3_counterexample :
    cfgA.priority = cfgB.priority ∧ cfgA.enabled = true ∧ cfgB.enabled = true ∧
    findMatchingConfig extNone emptyData
        (getResponseConfigsByOperation [cfgA, cfgB] "op") = some cfgB ∧
    cfgB ≠ cfgA := by
  exact ⟨rfl, rfl, rfl, by decide, by decide⟩

/-- Claim C3 (amended): when two enabled rules of equal priority are attached
to the same operation, the selected rule is determined by the store map's
unspecified iteration order fed through the unstable priority sort — either
rule can be selected, and insertion order plays no role. -/
theorem c3_tiebreak_iteration_order :
    findMatchingConfig extNone emptyData
        (getResponseConfigsByOperation [cfgA, cfgB] "op") = some cfgB ∧
    findMatchingConfig extNone emptyData
        (getResponseConfigsByOperation [cfgB, cfgA] "op") = some cfgA := by
  exact ⟨by decide, by decide⟩

/-! ## Claim C1: the example fallback ignores the spec's flag -/

/-- A spec whose example-fallback flag is off. -/
def specFlagOff : Spec :=
  { id := "spec-1", name := "Test API", basePath := "", enabled := true,
    tracing := false, useExampleFallback := false }

/-- Example response embedded in the operation. -/
def exPets : ExampleResponse :=
  { statusCode := 200, headers := [], body := "[\x7b\"id\":1\x7d]" }

/-- Operation `GET /pets` carrying an example response. -/
def opPets : Operation :=
  { id := "op-1", specID := "spec-1", method := "GET", path := "/pets",
    fullPath := "/pets", exampleResponse := some exPets }

/-- Claim C1 is violated by the code: with the owning spec's example-fallback
flag off, no rules configured, and an example present, `ServeHTTP` serves the
operation's embedded example response rather than the 404 with the fixed
error body — `dispatchAfterRoute` never consults `useExampleFallback`. -/
theorem c1_example_served_despite_flag_off :
    specFlagOff.useExampleFallback = false ∧
    dispatchAfterRoute extNone specFlagOff opPets false [] emptyData =
      DispatchResult.exampleResponse exPets ∧
    dispatchAfterRoute extNone specFlagOff opPets false [] emptyData ≠
      DispatchResult.noMatch404 noMatchBody := by
  exact ⟨rfl, by decide, by decide⟩

/-! ## Claims C6 and C7: evaluator totality and numeric comparison -/

/-- Embeds `models.ValidOperators`. -/
def ValidOperators : List String :=
  ["eq", "ne", "contains", "notContains", "regex", "exists", "notExists",
   "gt", "lt", "gte", "lte", "startsWith", "endsWith"]

/-- Embeds `models.ValidSources`. -/
def ValidSources : List String := ["path", "query", "header", "body"]

/-- Counterexample to claim C6: a condition with the unrecognized source
`cookie` and operator `notExists` evaluates to true, not false — the
unrecognized source extracts the empty string, and `notExists` holds of the
empty string. -/
theorem c6_counterexample :
    ValidSources.contains "cookie" = false ∧
    evaluate extNone ⟨"cookie", "x", "notExists", ""⟩ emptyData = true := by
  exact ⟨by decide, by decide⟩

/-- Claim C6 (amended): evaluation is total and degrades silently — a missing
value extracts as the empty string for every source, a regex whose pattern
fails to compile evaluates to false, an unrecognized operator evaluates to
false, and an unrecognized source extracts the empty string (so the condition
is evaluated as though the value were empty, which for operators such as
`notExists` yields true rather than false). -/
theorem c6_evaluator_degrades (ext : Ext) (cond : Condition) (data : RequestData) :
    (data.pathParams.find? (fun p => p.1 == cond.key) = none →
        extractValue ext "path" cond.key data = "") ∧
    (data.queryParams.find? (fun p => p.1 == cond.key) = none →
        extractValue ext "query" cond.key data = "") ∧
    ((∀ p ∈ data.headers, strEqFold p.1 cond.key = false ∨ p.2 = []) →
        extractValue ext "header" cond.key data = "") ∧
    (ext.jsonGet data.body cond.key = none →
        extractValue ext "body" cond.key data = "") ∧
    (cond.operator = "regex" → ext.regexCompile cond.value = none →
        evaluate ext cond data = false) ∧
    (ValidOperators.contains cond.operator = false →
        evaluate ext cond data = false) ∧
    (ValidSources.contains cond.source = false →
        extractValue ext cond.source cond.key data = "") := by
  refine ⟨?_, ?_, ?_, ?_, ?_, ?_, ?_⟩
  · intro h
    simp [extractValue, lookupPath, h]
  · intro h
    simp [extractValue, lookupQuery, h]
  · intro h
    have : ∀ m : List (String × List String),
        (∀ p ∈ m, strEqFold p.1 cond.key = false ∨ p.2 = []) →
        lookupHeaderFold m cond.key = "" := by
      intro m
      induction m with
      | nil => intro _; rfl
      | cons p rest ih =>
        intro hm
        rcases hm p (List.mem_cons_self _ _) with hf | he
        · rw [lookupHeaderFold, hf]
          simpa using ih (fun q hq => hm q (List.mem_cons_of_mem _ hq))
        · rw [lookupHeaderFold, he]
          simpa using ih (fun q hq => hm q (List.mem_cons_of_mem _ hq))
    simp [extractValue, this data.headers h]
  · intro h
    simp [extractValue, h]
  · intro hop hre
    simp [evaluate, compare, hop, hre]
  · intro h
    have h' : cond.operator ∉ ValidOperators := by simpa using h
    rw [ValidOperators] at h'
    simp only [List.mem_cons, List.not_mem_nil, or_false, not_or] at h'
    obtain ⟨h1, h2, h3, h4, h5, h6, h7, h8, h9, h10, h11, h12, h13⟩ := h'
    simp [evaluate, compare, h1, h2, h3, h4, h5, h6, h7, h8, h9, h10, h11, h12, h13]
  · intro h
    have h' : cond.source ∉ ValidSources := by simpa using h
    rw [ValidSources] at h'
    simp only [List.mem_cons, List.not_mem_nil, or_false, not_or] at h'
    obtain ⟨h1, h2, h3, h4⟩ := h'
    simp [extractValue, h1, h2, h3, h4]

/-- Witness for C6 at a concrete input: the unrecognized operator `foo`
evaluates to false. -/
theorem c6_evaluator_degrades_witness :
    evaluate extNone ⟨"query", "k", "foo", "v"⟩ emptyData = false := by
  have h := c6_evaluator_degrades extNone ⟨"query", "k", "foo", "v"⟩ emptyData
  exact h.2.2.2.2.2.1 (by decide)

theorem compare_gt (ext : Ext) (a b : String) :
    compare ext a "gt" b = decide (0 < compareNumeric ext a b) := rfl

theorem compare_lt (ext : Ext) (a b : String) :
    compare ext a "lt" b = decide (compareNumeric ext a b < 0) := rfl

theorem compare_gte (ext : Ext) (a b : String) :
    compare ext a "gte" b = decide (0 ≤ compareNumeric ext a b) := rfl

theorem compare_lte (ext : Ext) (a b : String) :
    compare ext a "lte" b = decide (compareNumeric ext a b ≤ 0) := rfl

theorem signPos (x y : ℚ) :
    ((0:Int) < if x < y then -1 else if y < x then 1 else 0) ↔ y < x := by
  split_ifs with h1 h2
  · exact ⟨fun hc => absurd hc (by norm_num), fun hy => absurd hy (lt_asymm h1)⟩
  · exact ⟨fun _ => h2, fun _ => by norm_num⟩
  · exact ⟨fun hc => absurd hc (by norm_num), fun hy => absurd hy h2⟩

theorem signNeg (x y : ℚ) :
    ((if x < y then -1 else if y < x then 1 else 0 : Int) < 0) ↔ x < y := by
  split_ifs with h1 h2
  · exact ⟨fun _ => h1, fun _ => by norm_num⟩
  · exact ⟨fun hc => absurd hc (by norm_num), fun hx => absurd hx (lt_asymm h2)⟩
  · exact ⟨fun hc => absurd hc (by norm_num), fun hx => absurd hx h1⟩

theorem signNonneg (x y : ℚ) :
    ((0:Int) ≤ if x < y then -1 else if y < x then 1 else 0) ↔ y ≤ x := by
  split_ifs with h1 h2
  · exact ⟨fun hc => absurd hc (by norm_num), fun hy => absurd h1 (not_lt.mpr hy)⟩
  · exact ⟨fun _ => le_of_lt h2, fun _ => by norm_num⟩
  · exact ⟨fun _ => le_of_not_lt h1, fun _ => le_refl _⟩

theorem signNonpos (x y : ℚ) :
    ((if x < y then -1 else if y < x then 1 else 0 : Int) ≤ 0) ↔ x ≤ y := by
  split_ifs with h1 h2
  · exact ⟨fun _ => le_of_lt h1, fun _ => by norm_num⟩
  · exact ⟨fun hc => absurd hc (by norm_num), fun hx => absurd h2 (not_lt.mpr hx)⟩
  · exact ⟨fun _ => le_of_not_lt h2, fun _ => le_refl _⟩

/-- Claim C7: for gt/lt/gte/lte both sides are parsed as 64-bit floats and
compared by sign; when either parse fails the comparison falls back to
byte-wise lexicographic order of the two strings. -/
theorem c7_numeric_operators (ext : Ext) (a b : String) :
    (∀ x y, ext.parseFloat a = some x → ext.parseFloat b = some y →
      ((compare ext a "gt" b = true ↔ y < x) ∧
       (compare ext a "lt" b = true ↔ x < y) ∧
       (compare ext a "gte" b = true ↔ y ≤ x) ∧
       (compare ext a "lte" b = true ↔ x ≤ y))) ∧
    ((ext.parseFloat a = none ∨ ext.parseFloat b = none) →
      ((compare ext a "gt" b = true ↔ 0 < lexCmp a.data b.data) ∧
       (compare ext a "lt" b = true ↔ lexCmp a.data b.data < 0) ∧
       (compare ext a "gte" b = true ↔ 0 ≤ lexCmp a.data b.data) ∧
       (compare ext a "lte" b = true ↔ lexCmp a.data b.data ≤ 0))) := by
  constructor
  · intro x y hx hy
    have hcn : compareNumeric ext a b = if x < y then -1 else if y < x then 1 else 0 := by
      simp [compareNumeric, hx, hy]
    refine ⟨?_, ?_, ?_, ?_⟩
    · rw [compare_gt, hcn]
      simp only [decide_eq_true_eq]
      exact signPos x y
    · rw [compare_lt, hcn]
      simp only [decide_eq_true_eq]
      exact signNeg x y
    · rw [compare_gte, hcn]
      simp only [decide_eq_true_eq]
      exact signNonneg x y
    · rw [compare_lte, hcn]
      simp only [decide_eq_true_eq]
      exact signNonpos x y
  · intro h
    have hcn : compareNumeric ext a b = lexCmp a.data b.data := by
      rcases h with ha | hb
      · cases hpb : ext.parseFloat b <;> simp [compareNumeric, ha, hpb]
      · cases hpa : ext.parseFloat a <;> simp [compareNumeric, hpa, hb]
    refine ⟨?_, ?_, ?_, ?_⟩
    · rw [compare_gt, hcn]; simp only [decide_eq_true_eq]
    · rw [compare_lt, hcn]; simp only [decide_eq_true_eq]
    · rw [compare_gte, hcn]; simp only [decide_eq_true_eq]
    · rw [compare_lte, hcn]; simp only [decide_eq_true_eq]

/-- Concrete oracle parsing only the strings "10" and "2". -/
def extNum : Ext :=
  { regexCompile := fun _ => none
    jsonGet := fun _ _ => none
    parseFloat := fun s => if s = "10" then some 10 else if s = "2" then some 2 else none }

/-- Witness for C7 at concrete inputs: numeric "10" > "2", and the parse
failure of "xyz"/"abc" falls back to string order where "xyz" > "abc". -/
theorem c7_numeric_operators_witness :
    compare extNum "10" "gt" "2" = true ∧ compare extNum "xyz" "gt" "abc" = true := by
  constructor
  · exact ((c7_numeric_operators extNum "10" "2").1 10 2 rfl rfl).1.mpr (by norm_num)
  · exact ((c7_numeric_operators extNum "xyz" "abc").2 (Or.inl rfl)).1.mpr (by decide)

/-! ## Template engine (internal/template/engine.go) -/

/-- Embeds `template.Context`. -/
structure TplContext where
  pathParams : List (String × String)
  queryParams : List (String × List String)
  headers : List (String × List String)
  body : String

/-- Oracles for the impure / external calls of the template engine: each RNG
draw of `resolveRandom`, the time formats of `resolveTimestamp`,
`strconv.ParseFloat` and `gjson.Get`. -/
structure TplOracles where
  pf : String → Option ℚ
  jget : String → String → Option String
  uuid : String
  intDef : Nat
  intIn : Int → Int → Int
  floatDef : String
  floatIn : ℚ → ℚ → String
  randStr : Nat → String
  bool2 : Nat
  nameIdx : Nat
  phone : String
  unix : Int
  unixMilli : Int
  unixNano : Int
  iso : String
  dateS : String
  timeS : String
  datetimeS : String
  fmtLayout : String → String
  addDur : String → Option String

/-- Model of `strings.TrimPrefix`. -/
def trimPre (pre s : String) : String :=
  if strStarts s pre then ⟨s.data.drop pre.data.length⟩ else s

/-- Model of `strings.TrimSuffix`. -/
def trimSufS (suffix s : String) : String :=
  if strEnds s suffix then ⟨s.data.take (s.data.length - suffix.data.length)⟩ else s

/-- Model of `strconv.Atoi` with the error ignored (the caller keeps the zero
value on a parse error, as `resolveRandom` does). -/
def digitsVal (cs : List Char) : Option Nat :=
  if cs.isEmpty then none
  else if cs.all (fun c => c.isDigit) then
    some (cs.foldl (fun acc c => acc * 10 + (c.toNat - 48)) 0)
  else none

/-- Integer parse used by `min, _ := strconv.Atoi(...)`: 0 on error. -/
def atoiGo (s : String) : Int :=
  match s.data with
  | '+' :: rest =>
    match digitsVal rest with
    | some n => (n : Int)
    | none => 0
  | '-' :: rest =>
    match digitsVal rest with
    | some n => -(n : Int)
    | none => 0
  | rest =>
    match digitsVal rest with
    | some n => (n : Int)
    | none => 0

/-- Embeds `parseParams` (engine.go, lines 210-226). -/
def parseParams (key funcName : String) : List String :=
  let pre := funcName ++ "("
  if !strStarts key pre then []
  else
    let p := trimSufS ")" (trimPre pre key)
    if p = "" then [] else p.splitOn ","

/-- Body of the `int(min,max)` branch of `resolveRandom`. -/
def randomIntRange (o : TplOracles) (key : String) : String :=
  let params := parseParams key "int"
  if params.length = 2 then
    let lo := atoiGo (params.getD 0 "")
    let hi := atoiGo (params.getD 1 "")
    if lo < hi then toString (o.intIn lo hi) else toString o.intDef
  else toString o.intDef

/-- Body of the `float(min,max)` branch of `resolveRandom`. -/
def randomFloatRange (o : TplOracles) (key : String) : String :=
  let params := parseParams key "float"
  if params.length = 2 then
    let lo := (o.pf (params.getD 0 "")).getD 0
    let hi := (o.pf (params.getD 1 "")).getD 0
    if lo < hi then o.floatIn lo hi else o.floatDef
  else o.floatDef

/-- Body of the `string(n)` branch of `resolveRandom`. -/
def randomStringN (o : TplOracles) (key : String) : String :=
  let params := parseParams key "string"
  if params.length = 1 then
    let n := atoiGo (params.getD 0 "")
    if 0 < n then o.randStr n.toNat else o.randStr 10
  else o.randStr 10

/-- Embeds `resolveRandom` (engine.go, lines 114-169); each draw of the
engine's seeded generator is an oracle field. -/
def resolveRandom (o : TplOracles) (key : String) : String :=
  if key = "uuid" then o.uuid
  else if key = "int" then toString o.intDef
  else if strStarts key "int(" then randomIntRange o key
  else if key = "float" then o.floatDef
  else if strStarts key "float(" then randomFloatRange o key
  else if key = "string" then o.randStr 10
  else if strStarts key "string(" then randomStringN o key
  else if key = "bool" then (if o.bool2 = 0 then "false" else "true")
  else if key = "email" then o.randStr 8 ++ "@example.com"
  else if key = "name" then
    ["John", "Jane", "Bob", "Alice", "Charlie", "Diana", "Eve", "Frank"].getD o.nameIdx ""
  else if key = "phone" then o.phone
  else ""

/-- Body of the `format(layout)` branch of `resolveTimestamp`. -/
def timestampFormat (o : TplOracles) (key : String) : String :=
  let params := parseParams key "format"
  if params.length = 1 then o.fmtLayout (params.getD 0 "") else toString o.unix

/-- Body of the `add(duration)` branch of `resolveTimestamp`. -/
def timestampAdd (o : TplOracles) (key : String) : String :=
  let params := parseParams key "add"
  if params.length = 1 then
    match o.addDur (params.getD 0 "") with
    | some s => s
    | none => toString o.unix
  else toString o.unix

/-- Embeds `resolveTimestamp` (engine.go, lines 172-207); note the final
default returns the Unix timestamp, not the empty string. -/
def resolveTimestamp (o : TplOracles) (key : String) : String :=
  if key = "" ∨ key = "unix" then toString o.unix
  else if key = "unixMilli" then toString o.unixMilli
  else if key = "unixNano" then toString o.unixNano
  else if key = "iso" then o.iso
  else if key = "date" then o.dateS
  else if key = "time" then o.timeS
  else if key = "datetime" then o.datetimeS
  else if strStarts key "format(" then timestampFormat o key
  else if strStarts key "add(" then timestampAdd o key
  else toString o.unix

/-- Split at the first dot, models `strings.SplitN(varName, ".", 2)`. -/
def splitFirstDot : List Char → List Char × Option (List Char)
  | [] => ([], none)
  | c :: cs =>
    if c = '.' then ([], some cs)
    else
      let r := splitFirstDot cs
      (c :: r.1, r.2)

/-- The (source, key) pair `resolveVariable` computes: strip one optional
leading dot, then split at the first remaining dot (key is "" when absent). -/
def splitSource (varName : String) : String × String :=
  let v := trimPre "." varName
  match splitFirstDot v.data with
  | (src, some rest) => (⟨src⟩, ⟨rest⟩)
  | (src, none) => (⟨src⟩, "")

/-- Embeds `resolveVariable` (engine.go, lines 57-111). -/
def resolveVariable (o : TplOracles) (varName : String) (ctx : TplContext) : String :=
  if (splitSource varName).1 = "path" then
    if (splitSource varName).2 = "" then ""
    else lookupPath ctx.pathParams (splitSource varName).2
  else if (splitSource varName).1 = "query" then
    if (splitSource varName).2 = "" then ""
    else lookupQuery ctx.queryParams (splitSource varName).2
  else if (splitSource varName).1 = "header" then
    if (splitSource varName).2 = "" then ""
    else lookupHeaderFold ctx.headers (splitSource varName).2
  else if (splitSource varName).1 = "body" then
    if (splitSource varName).2 = "" ∨ ctx.body = "" then ""
    else (o.jget ctx.body (splitSource varName).2).getD ""
  else if (splitSource varName).1 = "random" then resolveRandom o (splitSource varName).2
  else if (splitSource varName).1 = "timestamp" then resolveTimestamp o (splitSource varName).2
  else if (splitSource varName).1 = "env" then ""
  else ""

/-- Character class of `unicode.IsSpace`, used by `strings.TrimSpace`. -/
def isSpaceGo (c : Char) : Bool :=
  c = ' ' || c = '\t' || c = '\n' || c = '\x0b' || c = '\x0c' || c = '\r' ||
  c = '\x85' || c = '\xa0' || c = '\u1680' ||
  ('\u2000' ≤ c && c ≤ '\u200A') || c = '\u2028' || c = '\u2029' ||
  c = '\u202F' || c = '\u205F' || c = '\u3000'

/-- Model of `strings.TrimSpace` on char lists. -/
def trimSpaceChars (cs : List Char) : List Char :=
  ((cs.dropWhile isSpaceGo).reverse.dropWhile isSpaceGo).reverse

/-- One attempt of the pattern `\{\{([^}]+)\}\}` anchored at the start of
`s`: two braces, a nonempty maximal run of non-`}` characters, two closing
braces; returns the captured run and the remainder after the match.
Backtracking cannot produce any other match at this position, since a
shorter run leaves a non-`}` character where `\}` is required. -/
def matchTokenAt (s : List Char) : Option (List Char × List Char) :=
  match s with
  | c1 :: c2 :: rest =>
    if c1 = '{' ∧ c2 = '{' then
      let inner := rest.takeWhile (fun c => c != '}')
      match rest.drop inner.length with
      | d1 :: d2 :: rest2 =>
        if d1 = '}' ∧ d2 = '}' ∧ !inner.isEmpty then some (inner, rest2) else none
      | _ => none
    else none
  | _ => none

/-- Leftmost-first scan of `templateVarPattern.ReplaceAllStringFunc`: at each
position try the token pattern; on a match emit `resolveVariable` of the
trimmed capture and continue after the match, else keep the character.  The
fuel argument is the remaining input length (every step consumes at least one
character), making the recursion structural. -/
def processListF (o : TplOracles) (ctx : TplContext) : Nat → List Char → List Char
  | _, [] => []
  | 0, _ => []
  | n + 1, c :: cs =>
    match matchTokenAt (c :: cs) with
    | some p => (resolveVariable o ⟨trimSpaceChars p.1⟩ ctx).data ++ processListF o ctx n p.2
    | none => c :: processListF o ctx n cs

/-- Embeds `Engine.Process` (engine.go, lines 39-45). -/
def processString (o : TplOracles) (ctx : TplContext) (s : String) : String :=
  ⟨processListF o ctx s.data.length s.data⟩

/-- Names for which `resolveRandom` has a dedicated branch. -/
def recognizedRandomKey (key : String) : Bool :=
  if key = "uuid" then true
  else if key = "int" then true
  else if strStarts key "int(" then true
  else if key = "float" then true
  else if strStarts key "float(" then true
  else if key = "string" then true
  else if strStarts key "string(" then true
  else if key = "bool" then true
  else if key = "email" then true
  else if key = "name" then true
  else if key = "phone" then true
  else false

/-- Names for which `resolveTimestamp` has a dedicated branch. -/
def recognizedTimestampKey (key : String) : Bool :=
  if key = "" ∨ key = "unix" then true
  else if key = "unixMilli" then true
  else if key = "unixNano" then true
  else if key = "iso" then true
  else if key = "date" then true
  else if key = "time" then true
  else if key = "datetime" then true
  else if strStarts key "format(" then true
  else if strStarts key "add(" then true
  else false

/-- Recognized source/remainder combinations of the template table; `env` is
deliberately excluded, matching the claim's classification of `env.*` among
the tokens that must resolve to empty. -/
def recognizedName (varName : String) : Bool :=
  if (splitSource varName).1 = "path" then true
  else if (splitSource varName).1 = "query" then true
  else if (splitSource varName).1 = "header" then true
  else if (splitSource varName).1 = "body" then true
  else if (splitSource varName).1 = "random" then
    recognizedRandomKey (splitSource varName).2
  else if (splitSource varName).1 = "timestamp" then
    recognizedTimestampKey (splitSource varName).2
  else false

/-! ## Claim C4: unrecognized template tokens -/

/-- Concrete template oracle used by witnesses and counterexamples. -/
def tplOracleC : TplOracles :=
  { pf := fun _ => none, jget := fun _ _ => none, uuid := "u", intDef := 7,
    intIn := fun _ _ => 3, floatDef := "0.00", floatIn := fun _ _ => "1.00",
    randStr := fun _ => "r", bool2 := 0, nameIdx := 2, phone := "p",
    unix := 1700000000, unixMilli := 1, unixNano := 2, iso := "ISO", dateS := "D",
    timeS := "T", datetimeS := "DT", fmtLayout := fun s => "F" ++ s,
    addDur := fun _ => none }

/-- Empty template context. -/
def emptyTplCtx : TplContext :=
  { pathParams := [], queryParams := [], headers := [], body := "" }

theorem processListF_nil (o : TplOracles) (ctx : TplContext) (n : Nat) :
    processListF o ctx n [] = [] := by
  cases n <;> rfl

theorem processListF_cons (o : TplOracles) (ctx : TplContext) (n : Nat) (c : Char)
    (cs : List Char) :
    processListF o ctx (n + 1) (c :: cs) =
      match matchTokenAt (c :: cs) with
      | some p => (resolveVariable o ⟨trimSpaceChars p.1⟩ ctx).data ++ processListF o ctx n p.2
      | none => c :: processListF o ctx n cs := rfl

theorem takeWhile_append_brace (l t : List Char) (hl : ∀ c ∈ l, c ≠ '}') :
    (l ++ '}' :: t).takeWhile (fun c => c != '}') = l ∧
    (l ++ '}' :: t).drop l.length = '}' :: t := by
  induction l with
  | nil => constructor <;> simp
  | cons a as ih =>
    have ha : a ≠ '}' := hl a (List.mem_cons_self _ _)
    obtain ⟨ih1, ih2⟩ := ih (fun c hc => hl c (List.mem_cons_of_mem _ hc))
    constructor
    · simp [List.takeWhile_cons, ha, ih1]
    · simp only [List.cons_append, List.length_cons, List.drop_succ_cons]
      exact ih2

theorem matchTokenAt_token (name : List Char) (hne : name ≠ [])
    (hnb : ∀ c ∈ name, c ≠ '}') :
    matchTokenAt ('{' :: '{' :: (name ++ '}' :: '}' :: [])) = some (name, []) := by
  obtain ⟨tw, dr⟩ := takeWhile_append_brace name ('}' :: []) hnb
  have hie : name.isEmpty = false := by
    cases name with
    | nil => exact absurd rfl hne
    | cons a as => rfl
  simp [matchTokenAt, tw, dr, hie]

/-- A single well-formed token string is processed to the resolution of its
trimmed name. -/
theorem processString_token (o : TplOracles) (ctx : TplContext) (name : String)
    (hne : name.data ≠ []) (hnb : ∀ c ∈ name.data, c ≠ '}') :
    processString o ctx ("\x7b\x7b" ++ name ++ "\x7d\x7d") =
      resolveVariable o ⟨trimSpaceChars name.data⟩ ctx := by
  have hdata : ("\x7b\x7b" ++ name ++ "\x7d\x7d").data
      = '{' :: '{' :: (name.data ++ '}' :: '}' :: []) := by
    rw [String.data_append, String.data_append]
    show ('{' :: '{' :: []) ++ name.data ++ ('}' :: '}' :: []) = _
    simp
  rw [processString, hdata]
  rw [show ('{' :: '{' :: (name.data ++ '}' :: '}' :: [])).length
      = ('{' :: (name.data ++ '}' :: '}' :: [])).length + 1 from List.length_cons _ _]
  rw [processListF_cons, matchTokenAt_token name.data hne hnb]
  simp only [processListF_nil, List.append_nil]

set_option maxHeartbeats 1000000 in
theorem resolveRandom_unrecognized (o : TplOracles) (key : String)
    (h : recognizedRandomKey key = false) : resolveRandom o key = "" := by
  rw [recognizedRandomKey] at h
  rw [resolveRandom]
  split_ifs at h ⊢ <;> first | exact absurd h (by decide) | rfl

/-- When the name has an unrecognized source (or source `env`), the resolver
returns the empty string; the `timestamp` source is excluded because its
default branch returns the Unix time. -/
theorem resolveVariable_unrecognized (o : TplOracles) (ctx : TplContext) (name : String)
    (h : recognizedName name = false) (hts : (splitSource name).1 ≠ "timestamp") :
    resolveVariable o name ctx = "" := by
  rw [recognizedName] at h
  rw [resolveVariable]
  by_cases h1 : (splitSource name).1 = "path"
  · rw [if_pos h1] at h; simp at h
  rw [if_neg h1] at h; rw [if_neg h1]
  by_cases h2 : (splitSource name).1 = "query"
  · rw [if_pos h2] at h; simp at h
  rw [if_neg h2] at h; rw [if_neg h2]
  by_cases h3 : (splitSource name).1 = "header"
  · rw [if_pos h3] at h; simp at h
  rw [if_neg h3] at h; rw [if_neg h3]
  by_cases h4 : (splitSource name).1 = "body"
  · rw [if_pos h4] at h; simp at h
  rw [if_neg h4] at h; rw [if_neg h4]
  by_cases h5 : (splitSource name).1 = "random"
  · rw [if_pos h5] at h; rw [if_pos h5]
    exact resolveRandom_unrecognized o _ h
  rw [if_neg h5] at h; rw [if_neg h5]
  rw [if_neg hts]
  by_cases h7 : (splitSource name).1 = "env"
  · rw [if_pos h7]
  · rw [if_neg h7]

/-- Counterexample to claim C4: the token name `timestamp.bogus` is not a
recognized source/remainder combination, yet `Process` substitutes the Unix
timestamp (here 1700000000), not the empty string — `resolveTimestamp`'s
default branch returns `now.Unix()`. -/
theorem c4_counterexample :
    recognizedName "timestamp.bogus" = false ∧
    processString tplOracleC emptyTplCtx "\x7b\x7btimestamp.bogus\x7d\x7d"
      = "1700000000" := by
  exact ⟨by decide, by decide⟩

/-- Claim C4 (amended): every `{{…}}` token whose name (after trimming) is
not a recognized source/remainder combination and whose source is not
`timestamp` — including every `env.*` token — is substituted by the empty
string by Process; a `timestamp` token with an unrecognized remainder is
instead substituted by the current Unix timestamp. -/
theorem c4_unrecognized_resolves_empty (o : TplOracles) (ctx : TplContext) (name : String)
    (hne : name.data ≠ []) (hnb : ∀ c ∈ name.data, c ≠ '}')
    (hrec : recognizedName ⟨trimSpaceChars name.data⟩ = false)
    (hts : (splitSource ⟨trimSpaceChars name.data⟩).1 ≠ "timestamp") :
    processString o ctx ("\x7b\x7b" ++ name ++ "\x7d\x7d") = "" := by
  rw [processString_token o ctx name hne hnb]
  exact resolveVariable_unrecognized o ctx _ hrec hts

/-- Witness for C4 at a concrete input: the token `env.HOME` resolves to
empty. -/
theorem c4_unrecognized_resolves_empty_witness :
    processString tplOracleC emptyTplCtx "\x7b\x7benv.HOME\x7d\x7d" = "" := by
  exact c4_unrecognized_resolves_empty tplOracleC emptyTplCtx "env.HOME"
    (by decide) (by decide) (by decide) (by decide)

/-! ## Route table (internal/proxy/engine.go): compilation, ordering, matching -/

/-- One piece of a compiled path pattern: a literal chunk or a `([^/]+)`
capture group produced from a `{name}` placeholder. -/
inductive Seg where
  | lit (cs : List Char)
  | capture
  deriving Repr, DecidableEq

/-- Prepend a literal character to a segment list, merging into a leading
literal chunk. -/
def consLit (c : Char) : List Seg → List Seg
  | Seg.lit l :: rest => Seg.lit (c :: l) :: rest
  | segs => Seg.lit [c] :: segs

/-- Embeds the placeholder replacement of `buildPathPattern` (engine.go,
lines 104-119): scanning left to right, each `{name}` with a nonempty
brace-free name becomes a capture group and pushes `name` onto the capture
keys; everything else is literal (QuoteMeta makes the rest of the regex
literal). -/
def compileSegsF : Nat → List Char → List Seg × List String
  | _, [] => ([], [])
  | 0, _ => ([], [])
  | fuel + 1, c :: cs =>
    if c = '{' then
      let inner := cs.takeWhile (fun d => d != '}')
      if inner.length < cs.length ∧ !inner.isEmpty then
        let r := compileSegsF fuel (cs.drop (inner.length + 1))
        (Seg.capture :: r.1, (⟨inner⟩ : String) :: r.2)
      else
        let r := compileSegsF fuel cs
        (consLit c r.1, r.2)
    else
      let r := compileSegsF fuel cs
      (consLit c r.1, r.2)

/-- Entry point of the scan; the fuel is the input length (every step
consumes at least one character). -/
def compileSegs (s : List Char) : List Seg × List String := compileSegsF s.length s

/-- Embeds the fields of `proxy.route` the claims use: the operation's raw
path (used by the sort) and the compiled pattern with its capture keys. -/
structure Route where
  operationId : String
  opPath : String
  segs : List Seg
  paramKeys : List String
  deriving Repr, DecidableEq

/-- Builds a route from an operation's raw path and its joined full path
(`path.Join(basePath, opPath)` is the standard library; its output is taken
as input here), as `ReloadRoutes` does per operation. -/
def buildRoute (operationId opPath fullPath : String) : Route :=
  let c := compileSegs fullPath.data
  { operationId := operationId, opPath := opPath, segs := c.1, paramKeys := c.2 }

/-- Byte length of a Go string (`len` on a string counts UTF-8 bytes). -/
def goLen (s : String) : Nat := s.utf8ByteSize

/-- Embeds the `sort.Slice` comparator of `sortRoutes` (engine.go, lines
124-136): fewer parameters first; ties broken by longer raw operation path
first. -/
def routeLess (a b : Route) : Bool :=
  if a.paramKeys.length ≠ b.paramKeys.length then
    decide (a.paramKeys.length < b.paramKeys.length)
  else decide (goLen b.opPath < goLen a.opPath)

/-- Sorted insertion under `routeLess`; the result is ordered under the
comparator and is a permutation of the input, which is what `sort.Slice`
guarantees. -/
def insertRoute (a : Route) : List Route → List Route
  | [] => [a]
  | b :: bs => if routeLess a b then a :: b :: bs else b :: insertRoute a bs

/-- Embeds `sortRoutes` (engine.go, lines 122-137). -/
def sortRoutesM : List Route → List Route
  | [] => []
  | a :: as => insertRoute a (sortRoutesM as)

/-- Greedy backtracking for one `([^/]+)` group: try capture lengths from the
maximal non-`/` run length downward (at least one character), continuing with
`f` on the remainder; mirrors the regex engine's greedy matching. -/
def tryLens (f : List Char → Option (List (List Char))) (s : List Char) :
    Nat → Option (List (List Char))
  | 0 => none
  | k + 1 =>
    match f (s.drop (k + 1)) with
    | some caps => some (s.take (k + 1) :: caps)
    | none => tryLens f s k

/-- Anchored match of a compiled pattern against a path, returning the list
of captured groups in order (the regex `^…$` built by `buildPathPattern`). -/
def matchSegs : List Seg → List Char → Option (List (List Char))
  | [], s => if s.isEmpty then some [] else none
  | Seg.lit l :: rest, s =>
    if isPre l s then matchSegs rest (s.drop l.length) else none
  | Seg.capture :: rest, s =>
    tryLens (fun t => matchSegs rest t) s (s.takeWhile (fun c => c != '/')).length

/-- Embeds the loop of `matchRoute` (engine.go, lines 339-358): walk the
(ordered) route list, return the first whose pattern matches, pairing capture
keys with captured values in order. -/
def matchRouteList (routes : List Route) (p : List Char) :
    Option (Route × List (String × String)) :=
  match routes with
  | [] => none
  | r :: rest =>
    match matchSegs r.segs p with
    | some caps => some (r, r.paramKeys.zip (caps.map (fun c => (⟨c⟩ : String))))
    | none => matchRouteList rest p

/-- The ordering `sortRoutes` establishes between consecutive routes: fewer
captured parameters first, ties broken by longer raw operation path first. -/
def routeOrdered (a b : Route) : Prop :=
  a.paramKeys.length < b.paramKeys.length ∨
    (a.paramKeys.length = b.paramKeys.length ∧ goLen b.opPath ≤ goLen a.opPath)

theorem routeLess_iff (a b : Route) :
    routeLess a b = true ↔
      (a.paramKeys.length < b.paramKeys.length ∨
        (a.paramKeys.length = b.paramKeys.length ∧ goLen b.opPath < goLen a.opPath)) := by
  rw [routeLess]
  by_cases h : a.paramKeys.length ≠ b.paramKeys.length
  · rw [if_pos h]
    simp only [decide_eq_true_eq]
    omega
  · rw [if_neg h]
    simp only [decide_eq_true_eq]
    omega

theorem routeLess_true (a b : Route) (h : routeLess a b = true) : routeOrdered a b := by
  have hx := (routeLess_iff a b).mp h
  rw [routeOrdered]
  omega

theorem routeLess_false (a b : Route) (h : routeLess a b = false) : routeOrdered b a := by
  have hx := routeLess_iff a b
  rw [h] at hx
  simp at hx
  rw [routeOrdered]
  omega

theorem routeOrdered_trans (a b c : Route) (h1 : routeOrdered a b)
    (h2 : routeOrdered b c) : routeOrdered a c := by
  rw [routeOrdered] at h1 h2 ⊢
  omega

theorem insertRoute_perm (a : Route) (l : List Route) :
    (insertRoute a l).Perm (a :: l) := by
  induction l with
  | nil => simp [insertRoute]
  | cons b bs ih =>
    by_cases h : routeLess a b = true
    · simp [insertRoute, h]
    · have hf : routeLess a b = false := by
        cases hx : routeLess a b
        · rfl
        · exact absurd hx h
      simp only [insertRoute, hf, Bool.false_eq_true, if_false]
      exact (ih.cons b).trans (List.Perm.swap a b bs)

theorem sortRoutesM_perm (l : List Route) : (sortRoutesM l).Perm l := by
  induction l with
  | nil => simp [sortRoutesM]
  | cons a as ih => exact (insertRoute_perm a (sortRoutesM as)).trans (ih.cons a)

theorem insertRoute_pairwise (a : Route) (l : List Route)
    (h : l.Pairwise routeOrdered) : (insertRoute a l).Pairwise routeOrdered := by
  induction l with
  | nil => simp [insertRoute]
  | cons b bs ih =>
    rw [List.pairwise_cons] at h
    obtain ⟨hb, hbs⟩ := h
    by_cases hc : routeLess a b = true
    · simp only [insertRoute, hc, if_true]
      rw [List.pairwise_cons]
      refine ⟨?_, List.pairwise_cons.mpr ⟨hb, hbs⟩⟩
      intro x hx
      rcases List.mem_cons.mp hx with rfl | hxm
      · exact routeLess_true a x hc
      · exact routeOrdered_trans a b x (routeLess_true a b hc) (hb x hxm)
    · have hf : routeLess a b = false := by
        cases hx : routeLess a b
        · rfl
        · exact absurd hx hc
      simp only [insertRoute, hf, Bool.false_eq_true, if_false]
      rw [List.pairwise_cons]
      refine ⟨?_, ih hbs⟩
      intro x hx
      have hx' : x ∈ a :: bs := (insertRoute_perm a bs).mem_iff.mp hx
      rcases List.mem_cons.mp hx' with rfl | hxm
      · exact routeLess_false x b hf
      · exact hb x hxm

theorem sortRoutesM_pairwise (l : List Route) :
    (sortRoutesM l).Pairwise routeOrdered := by
  induction l with
  | nil => simp [sortRoutesM]
  | cons a as ih => exact insertRoute_pairwise a (sortRoutesM as) ih

theorem matchRouteList_some (routes : List Route) (p : List Char)
    {r : Route} {params : List (String × String)}
    (h : matchRouteList routes p = some (r, params)) :
    ∃ pre post, routes = pre ++ r :: post ∧
      (∀ r' ∈ pre, matchSegs r'.segs p = none) ∧
      ∃ caps, matchSegs r.segs p = some caps ∧
        params = r.paramKeys.zip (caps.map (fun c => (⟨c⟩ : String))) := by
  induction routes with
  | nil => simp [matchRouteList] at h
  | cons q qs ih =>
    cases hm : matchSegs q.segs p with
    | some caps =>
      rw [matchRouteList, hm] at h
      cases h
      exact ⟨[], qs, rfl, by simp, caps, hm, rfl⟩
    | none =>
      rw [matchRouteList, hm] at h
      obtain ⟨pre, post, heq, hpre, caps, hcaps, hparams⟩ := ih h
      refine ⟨q :: pre, post, by rw [heq, List.cons_append], ?_, caps, hcaps, hparams⟩
      intro r' hr'
      rcases List.mem_cons.mp hr' with rfl | hm2
      · exact hm
      · exact hpre r' hm2

theorem matchRouteList_none (routes : List Route) (p : List Char)
    (h : matchRouteList routes p = none) :
    ∀ r ∈ routes, matchSegs r.segs p = none := by
  induction routes with
  | nil => intro r hr; simp at hr
  | cons q qs ih =>
    cases hm : matchSegs q.segs p with
    | some caps => rw [matchRouteList, hm] at h; cases h
    | none =>
      rw [matchRouteList, hm] at h
      intro r hr
      rcases List.mem_cons.mp hr with rfl | hm2
      · exact hm
      · exact ih h r hm2

/-- Claim C5: within a method, `sortRoutes` orders routes with fewer captured
parameters first (ties broken by longer raw operation path first), and route
matching walks the ordered list, returning the first route whose anchored
pattern matches, pairing capture keys with the captured values in order. -/
theorem c5_route_order_and_match (routes : List Route) (p : List Char) :
    (sortRoutesM routes).Perm routes ∧
    (sortRoutesM routes).Pairwise routeOrdered ∧
    (∀ r params, matchRouteList (sortRoutesM routes) p = some (r, params) →
      ∃ pre post, sortRoutesM routes = pre ++ r :: post ∧
        (∀ r' ∈ pre, matchSegs r'.segs p = none) ∧
        ∃ caps, matchSegs r.segs p = some caps ∧
          params = r.paramKeys.zip (caps.map (fun c => (⟨c⟩ : String)))) ∧
    (matchRouteList (sortRoutesM routes) p = none →
      ∀ r ∈ sortRoutesM routes, matchSegs r.segs p = none) := by
  refine ⟨sortRoutesM_perm routes, sortRoutesM_pairwise routes, ?_, ?_⟩
  · intro r params h
    exact matchRouteList_some (sortRoutesM routes) p h
  · intro h
    exact matchRouteList_none (sortRoutesM routes) p h

/-- The literal route `/users/me` (zero captures). -/
def rMe : Route := buildRoute "op-me" "/users/me" "/users/me"

/-- The parametrised route `/users/{id}` (one capture). -/
def rId : Route := buildRoute "op-id" "/users/{id}" "/users/{id}"

/-- Witness for C5 at concrete input: with the two routes of scenario S3,
the sorted order puts the literal route first, `/users/7` matches the
parametrised route with `id = 7`, and the theorem's first-match
decomposition holds there. -/
theorem c5_route_order_and_match_witness :
    sortRoutesM [rId, rMe] = [rMe, rId] ∧
    ∃ pre post, sortRoutesM [rId, rMe] = pre ++ rId :: post ∧
      (∀ r' ∈ pre, matchSegs r'.segs "/users/7".data = none) ∧
      ∃ caps, matchSegs rId.segs "/users/7".data = some caps ∧
        [("id", "7")] = rId.paramKeys.zip (caps.map (fun c => (⟨c⟩ : String))) := by
  refine ⟨by decide, ?_⟩
  exact (c5_route_order_and_match [rId, rMe] "/users/7".data).2.2.1 rId
    [("id", "7")] (by decide)

/-! ## Trace bus (internal/tracing/service.go, the variant with the `closed`
flag).  Every method's body runs entirely under `s.mu`, so any interleaving
of concurrent calls is a serialization of atomic steps; the model is the
induced labelled transition system.  Channels carry an identity number so a
later subscription reusing an id is a fresh channel. -/

/-- Trace payload: id and timestamp are the fields `RecordTrace` defaults
(ts = 0 models `Timestamp.IsZero()`), the rest is opaque. -/
structure TraceM where
  id : String
  ts : Int
  payload : String
  deriving Repr, DecidableEq

/-- The id/timestamp defaulting of `RecordTrace` (lines 43-50); the fresh
uuid and the current time are oracle arguments. -/
def fillTrace (uuid : String) (now : Int) (tr : TraceM) : TraceM :=
  { id := if tr.id = "" then uuid else tr.id,
    ts := if tr.ts = 0 then now else tr.ts,
    payload := tr.payload }

/-- Embeds `subscriber` (service.go, lines 12-15) plus the channel identity
and its buffered queue (capacity 100). -/
structure SubState where
  chan : Nat
  queue : List TraceM
  closed : Bool
  deriving Repr, DecidableEq

/-- State of `tracing.Service`: the ring, the bound, the subscriber map (an
association list), a channel allocator, and the ghost set of closed
channels. -/
structure ServiceSt where
  traces : List TraceM
  maxTraces : Int
  subscribers : List (String × SubState)
  nextChan : Nat
  closedChans : List Nat
  deriving Repr, DecidableEq

/-- Embeds `NewService` (service.go, lines 26-36). -/
def newService (maxTraces : Int) : ServiceSt :=
  { traces := [], maxTraces := if maxTraces ≤ 0 then 1000 else maxTraces,
    subscribers := [], nextChan := 0, closedChans := [] }

/-- The ring update of `RecordTrace` (lines 53-58): append, then cut back to
the last `maxTraces` entries when over the bound. -/
def trimTraces (maxT : Int) (l : List TraceM) : List TraceM :=
  if (l.length : Int) > maxT then l.drop (((l.length : Int) - maxT).toNat) else l

/-- Embeds `RecordTrace` (lines 39-73): default id/timestamp, append and trim
the ring, then — still under the lock — offer the trace to every subscriber
whose `closed` flag is unset (a full queue drops the trace for that
subscriber).  The returned list is the channels on which a send is attempted;
a select-send on a closed channel would panic even with a `default` branch,
so every non-closed subscriber's channel counts as an attempt. -/
def recordTrace (uuid : String) (now : Int) (tr : TraceM) (s : ServiceSt) :
    ServiceSt × List Nat :=
  let tr2 := fillTrace uuid now tr
  let traces2 := trimTraces s.maxTraces (s.traces ++ [tr2])
  let subs2 := s.subscribers.map (fun p =>
    if !p.2.closed && p.2.queue.length < 100 then
      (p.1, { p.2 with queue := p.2.queue ++ [tr2] })
    else p)
  let attempts := (s.subscribers.filter (fun p => !p.2.closed)).map (fun p => p.2.chan)
  ({ s with traces := traces2, subscribers := subs2 }, attempts)

/-- Embeds `Subscribe` (lines 155-164): insert a fresh open subscription
under the id (map assignment overwrites an existing binding). -/
def subscribeSvc (id : String) (s : ServiceSt) : ServiceSt :=
  { s with
    subscribers := (s.subscribers.filter (fun p => p.1 ≠ id)) ++
      [(id, { chan := s.nextChan, queue := [], closed := false })],
    nextChan := s.nextChan + 1 }

/-- Embeds `Unsubscribe` (lines 167-176): when the id is present, set the
closed flag, close the channel and delete the entry — all in one critical
section. -/
def unsubscribeSvc (id : String) (s : ServiceSt) : ServiceSt :=
  match s.subscribers.find? (fun p => p.1 == id) with
  | some p =>
    { s with
      subscribers := s.subscribers.filter (fun q => q.1 ≠ id),
      closedChans := p.2.chan :: s.closedChans }
  | none => s

/-- One atomic service call. -/
inductive SvcOp where
  | record (uuid : String) (now : Int) (tr : TraceM)
  | sub (id : String)
  | unsub (id : String)

/-- Step of the transition system; the event list is the channels on which
`RecordTrace` attempts a send. -/
def svcStep (s : ServiceSt) : SvcOp → ServiceSt × List Nat
  | .record u n tr => recordTrace u n tr s
  | .sub id => (subscribeSvc id s, [])
  | .unsub id => (unsubscribeSvc id s, [])

/-- Number of sends attempted on channels already closed in the pre-state. -/
def hazardCount (s : ServiceSt) (evts : List Nat) : Nat :=
  (evts.filter (fun c => s.closedChans.contains c)).length

/-- Run a sequence of atomic calls, accumulating the hazard count. -/
def runSvc (s : ServiceSt) : List SvcOp → ServiceSt × Nat
  | [] => (s, 0)
  | op :: ops =>
    let r := svcStep s op
    let h := hazardCount s r.2
    let rest := runSvc r.1 ops
    (rest.1, h + rest.2)

/-- Invariant tying the subscriber map to the ghost closed set: every mapped
subscription is open, its channel unclosed and below the allocator; closed
channels are below the allocator; and distinct map entries hold distinct
channels (each `Subscribe` makes a fresh channel). -/
def svcInv (s : ServiceSt) : Prop :=
  (∀ p ∈ s.subscribers,
    p.2.closed = false ∧ p.2.chan ∉ s.closedChans ∧ p.2.chan < s.nextChan) ∧
  (∀ c ∈ s.closedChans, c < s.nextChan) ∧
  s.subscribers.Pairwise (fun p q => p.2.chan ≠ q.2.chan)

theorem svcInv_new (m : Int) : svcInv (newService m) := by
  refine ⟨?_, ?_, ?_⟩
  · intro p hp
    simp [newService] at hp
  · intro c hc
    simp [newService] at hc
  · simp [newService]

theorem svcInv_step (s : ServiceSt) (op : SvcOp) (h : svcInv s) :
    svcInv (svcStep s op).1 := by
  obtain ⟨h1, h2, h3⟩ := h
  cases op with
  | record u n tr =>
    refine ⟨?_, h2, ?_⟩
    · intro p hp
      simp only [svcStep, recordTrace, List.mem_map] at hp
      obtain ⟨q, hq, hpq⟩ := hp
      have hq' := h1 q hq
      by_cases hg : (!q.2.closed && q.2.queue.length < 100) = true
      · rw [if_pos hg] at hpq
        cases hpq
        exact ⟨hq'.1, hq'.2.1, hq'.2.2⟩
      · rw [if_neg hg] at hpq
        cases hpq
        exact hq'
    · show (List.map _ s.subscribers).Pairwise _
      rw [List.pairwise_map]
      refine h3.imp_of_mem ?_
      intro p q _ _ hne
      by_cases hgp : (!p.2.closed && p.2.queue.length < 100) = true <;>
        by_cases hgq : (!q.2.closed && q.2.queue.length < 100) = true <;>
          simp [hgp, hgq, hne]
  | sub id =>
    refine ⟨?_, ?_, ?_⟩
    · intro p hp
      simp only [svcStep, subscribeSvc, List.mem_append, List.mem_filter,
        List.mem_singleton] at hp
      rcases hp with ⟨hmem, _⟩ | rfl
      · have := h1 p hmem
        exact ⟨this.1, this.2.1, Nat.lt_succ_of_lt this.2.2⟩
      · refine ⟨rfl, ?_, Nat.lt_succ_self _⟩
        intro hc
        exact absurd (h2 _ hc) (lt_irrefl _)
    · intro c hc
      exact Nat.lt_succ_of_lt (h2 c hc)
    · show (List.filter _ s.subscribers ++ _).Pairwise _
      rw [List.pairwise_append]
      refine ⟨h3.sublist (List.filter_sublist _), by simp, ?_⟩
      intro p hp q hq
      rw [List.mem_singleton] at hq
      subst hq
      have hpm := h1 p (List.mem_of_mem_filter hp)
      exact Nat.ne_of_lt hpm.2.2
  | unsub id =>
    cases hf : s.subscribers.find? (fun p => p.1 == id) with
    | none =>
      have hstep : (svcStep s (SvcOp.unsub id)).1 = s := by
        simp [svcStep, unsubscribeSvc, hf]
      rw [hstep]
      exact ⟨h1, h2, h3⟩
    | some q =>
      have hstep : (svcStep s (SvcOp.unsub id)).1 =
          { s with subscribers := s.subscribers.filter (fun qq => qq.1 ≠ id),
                   closedChans := q.2.chan :: s.closedChans } := by
        simp [svcStep, unsubscribeSvc, hf]
      rw [hstep]
      have hqmem : q ∈ s.subscribers := List.mem_of_find?_eq_some hf
      have hqid : q.1 = id := by
        have := List.find?_some hf
        simpa using this
      have hq := h1 q hqmem
      have hchans : ∀ p ∈ s.subscribers, p.1 ≠ id → p.2.chan ≠ q.2.chan := by
        intro p hp hpid
        have hpq : p ≠ q := by
          intro he
          exact hpid (he ▸ hqid)
        have hsym : Symmetric (fun p q : String × SubState => p.2.chan ≠ q.2.chan) :=
          fun a b hab => hab.symm
        exact List.Pairwise.forall hsym h3 hp hqmem hpq
      refine ⟨?_, ?_, ?_⟩
      · intro p hp
        simp only [List.mem_filter, decide_eq_true_eq] at hp
        have hpm := h1 p hp.1
        refine ⟨hpm.1, ?_, hpm.2.2⟩
        intro hc
        rcases List.mem_cons.mp hc with heq | hold
        · exact hchans p hp.1 hp.2 heq
        · exact hpm.2.1 hold
      · intro c hc
        rcases List.mem_cons.mp hc with rfl | hold
        · exact hq.2.2
        · exact h2 c hold
      · exact h3.sublist (List.filter_sublist _)

theorem hazardCount_zero_of_inv (s : ServiceSt) (op : SvcOp) (h : svcInv s) :
    hazardCount s (svcStep s op).2 = 0 := by
  obtain ⟨h1, _, _⟩ := h
  cases op with
  | record u n tr =>
    rw [hazardCount, List.length_eq_zero, List.filter_eq_nil_iff]
    intro c hc
    simp only [svcStep, recordTrace, List.mem_map, List.mem_filter] at hc
    obtain ⟨p, ⟨hpm, _⟩, hpc⟩ := hc
    subst hpc
    have hnm := (h1 p hpm).2.1
    simpa using hnm
  | sub id => rfl
  | unsub id => rfl

theorem runSvc_cons_fst (s : ServiceSt) (op : SvcOp) (ops : List SvcOp) :
    (runSvc s (op :: ops)).1 = (runSvc (svcStep s op).1 ops).1 := rfl

theorem runSvc_cons_snd (s : ServiceSt) (op : SvcOp) (ops : List SvcOp) :
    (runSvc s (op :: ops)).2 =
      hazardCount s (svcStep s op).2 + (runSvc (svcStep s op).1 ops).2 := rfl

theorem runSvc_hazard_zero_of_inv (ops : List SvcOp) :
    ∀ s : ServiceSt, svcInv s → (runSvc s ops).2 = 0 := by
  induction ops with
  | nil => intro s _; rfl
  | cons op rest ih =>
    intro s hs
    rw [runSvc_cons_snd, hazardCount_zero_of_inv s op hs, Nat.zero_add]
    exact ih (svcStep s op).1 (svcInv_step s op hs)

/-- Claim C9: in every interleaving of `Record`, `Subscribe` and
`Unsubscribe` (serialized by the service mutex into a sequence of atomic
steps), `Record` never attempts a send on a closed subscriber channel:
starting from a fresh service, every run has hazard count zero. -/
theorem c9_no_send_on_closed_channel (m : Int) (ops : List SvcOp) :
    (runSvc (newService m) ops).2 = 0 :=
  runSvc_hazard_zero_of_inv ops (newService m) (svcInv_new m)

/-! ## Claim C8: the trace ring bound -/

/-- Last `n` elements of a list. -/
def lastN (l : List TraceM) (n : Nat) : List TraceM := l.drop (l.length - n)

theorem trimTraces_eq_lastN (maxT : Int) (l : List TraceM) :
    trimTraces maxT l = lastN l maxT.toNat := by
  rw [trimTraces, lastN]
  by_cases h : (l.length : Int) > maxT
  · rw [if_pos h]
    by_cases hm : 0 ≤ maxT
    · congr 1
      omega
    · have h1 : l.drop (((l.length : Int) - maxT).toNat) = [] := by
        rw [List.drop_eq_nil_iff]
        omega
      have h2 : l.drop (l.length - maxT.toNat) = [] := by
        rw [List.drop_eq_nil_iff]
        omega
      rw [h1, h2]
  · rw [if_neg h]
    have hz : l.length - maxT.toNat = 0 := by omega
    rw [hz, List.drop_zero]

theorem lastN_length_le (l : List TraceM) (n : Nat) : (lastN l n).length ≤ n := by
  rw [lastN, List.length_drop]
  omega

theorem lastN_append (a b : List TraceM) (n : Nat) :
    lastN (lastN a n ++ b) n = lastN (a ++ b) n := by
  simp only [lastN, List.length_append, List.length_drop]
  rw [List.drop_append_eq_append_drop, List.drop_append_eq_append_drop,
    List.drop_drop]
  congr 1
  · congr 1
    omega
  · congr 1
    simp only [List.length_drop]
    omega

/-- The record input triples (uuid draw, current time, trace). -/
def recOps (rs : List (String × Int × TraceM)) : List SvcOp :=
  rs.map (fun r => SvcOp.record r.1 r.2.1 r.2.2)

/-- The traces as stored (ids and timestamps defaulted). -/
def recFills (rs : List (String × Int × TraceM)) : List TraceM :=
  rs.map (fun r => fillTrace r.1 r.2.1 r.2.2)

theorem recordTrace_fst_traces (u : String) (n : Int) (tr : TraceM) (s : ServiceSt) :
    (recordTrace u n tr s).1.traces
      = trimTraces s.maxTraces (s.traces ++ [fillTrace u n tr]) := rfl

theorem recordTrace_fst_maxTraces (u : String) (n : Int) (tr : TraceM) (s : ServiceSt) :
    (recordTrace u n tr s).1.maxTraces = s.maxTraces := rfl

theorem runSvc_record_traces (rs : List (String × Int × TraceM)) :
    ∀ s : ServiceSt, s.traces.length ≤ s.maxTraces.toNat →
      (runSvc s (recOps rs)).1.traces
        = lastN (s.traces ++ recFills rs) s.maxTraces.toNat ∧
      (runSvc s (recOps rs)).1.maxTraces = s.maxTraces := by
  induction rs with
  | nil =>
    intro s hlen
    refine ⟨?_, rfl⟩
    show s.traces = lastN (s.traces ++ []) s.maxTraces.toNat
    rw [List.append_nil, lastN]
    have hz : s.traces.length - s.maxTraces.toNat = 0 := by omega
    rw [hz, List.drop_zero]
  | cons r rest ih =>
    intro s hlen
    have hops : recOps (r :: rest) = SvcOp.record r.1 r.2.1 r.2.2 :: recOps rest := rfl
    have hstep : (svcStep s (SvcOp.record r.1 r.2.1 r.2.2)).1
        = (recordTrace r.1 r.2.1 r.2.2 s).1 := rfl
    have ht : (recordTrace r.1 r.2.1 r.2.2 s).1.traces
        = lastN (s.traces ++ [fillTrace r.1 r.2.1 r.2.2]) s.maxTraces.toNat := by
      rw [recordTrace_fst_traces, trimTraces_eq_lastN]
    have hm := recordTrace_fst_maxTraces r.1 r.2.1 r.2.2 s
    have hlen' : (recordTrace r.1 r.2.1 r.2.2 s).1.traces.length
        ≤ (recordTrace r.1 r.2.1 r.2.2 s).1.maxTraces.toNat := by
      rw [ht, hm]
      exact lastN_length_le _ _
    obtain ⟨ih1, ih2⟩ := ih (recordTrace r.1 r.2.1 r.2.2 s).1 hlen'
    rw [hops, runSvc_cons_fst, hstep]
    refine ⟨?_, ?_⟩
    · rw [ih1, ht, hm, lastN_append]
      congr 1
      rw [List.append_assoc]
      rfl
    · rw [ih2, hm]

/-- Claim C8: the ring never holds more than `maxTraces` traces (the bound
defaults to 1000 when the service is constructed with zero or a negative
value), and after `N ≥ maxTraces` records it holds exactly the last
`maxTraces` recorded traces, oldest discarded first. -/
theorem c8_trace_ring_bound (m : Int) (rs : List (String × Int × TraceM)) :
    (newService m).maxTraces = (if m ≤ 0 then 1000 else m) ∧
    ((runSvc (newService m) (recOps rs)).1.traces.length : Int)
        ≤ (newService m).maxTraces ∧
    ((newService m).maxTraces ≤ (rs.length : Int) →
      (runSvc (newService m) (recOps rs)).1.traces
          = (recFills rs).drop (rs.length - (newService m).maxTraces.toNat) ∧
      (runSvc (newService m) (recOps rs)).1.traces.length
          = (newService m).maxTraces.toNat) := by
  have heff : (1 : Int) ≤ (newService m).maxTraces := by
    show (1 : Int) ≤ if m ≤ 0 then 1000 else m
    split_ifs with h
    · norm_num
    · omega
  obtain ⟨h1, _⟩ := runSvc_record_traces rs (newService m) (by simp [newService])
  have htr : (runSvc (newService m) (recOps rs)).1.traces
      = lastN (recFills rs) (newService m).maxTraces.toNat := by
    simpa using h1
  have hlenf : (recFills rs).length = rs.length := by simp [recFills]
  refine ⟨rfl, ?_, ?_⟩
  · rw [htr]
    have hle := lastN_length_le (recFills rs) (newService m).maxTraces.toNat
    omega
  · intro hge
    refine ⟨?_, ?_⟩
    · rw [htr, lastN, hlenf]
    · rw [htr, lastN, List.length_drop]
      omega

/-- Three record inputs with blank ids and zero timestamps. -/
def rs3 : List (String × Int × TraceM) :=
  [("a", 1, ⟨"", 0, "x"⟩), ("b", 2, ⟨"", 0, "y"⟩), ("c", 3, ⟨"", 0, "z"⟩)]

/-- Witness for C8 at a concrete input: a ring of capacity 2 fed 3 records
keeps exactly the last 2. -/
theorem c8_trace_ring_bound_witness :
    (runSvc (newService 2) (recOps rs3)).1.traces
        = (recFills rs3).drop (rs3.length - (newService 2).maxTraces.toNat) ∧
    (runSvc (newService 2) (recOps rs3)).1.traces.length
        = (newService 2).maxTraces.toNat :=
  (c8_trace_ring_bound 2 rs3).2.2 (by decide)

/-! ## Operation id generation (internal/parser/openapi.go, lines 331-337):
SHA-256 of "specID:method:path", first 16 bytes hex-encoded.  SHA-256 is
implemented over byte lists (Nat with explicit mod 2^32 arithmetic). -/

/-- Truncate to a 32-bit word. -/
def w32 (x : Nat) : Nat := x % 4294967296

/-- Rotate a 32-bit word right by `n` bits. -/
def rotr (n x : Nat) : Nat := ((x <<< (32 - n)) ||| (x >>> n)) % 4294967296

/-- SHA-256 choice function. -/
def chFn (e f g : Nat) : Nat := (e &&& f) ^^^ ((4294967295 ^^^ e) &&& g)

/-- SHA-256 majority function. -/
def majFn (a b c : Nat) : Nat := ((a &&& b) ^^^ (a &&& c)) ^^^ (b &&& c)

/-- Compression sigma functions. -/
def bigSigma0 (a : Nat) : Nat := rotr 2 a ^^^ rotr 13 a ^^^ rotr 22 a

/-- Second compression sigma. -/
def bigSigma1 (e : Nat) : Nat := rotr 6 e ^^^ rotr 11 e ^^^ rotr 25 e

/-- Message-schedule sigma functions. -/
def smallSigma0 (x : Nat) : Nat := rotr 7 x ^^^ rotr 18 x ^^^ (x >>> 3)

/-- Second schedule sigma. -/
def smallSigma1 (x : Nat) : Nat := rotr 17 x ^^^ rotr 19 x ^^^ (x >>> 10)

/-- SHA-256 round constants. -/
def shaK : List Nat :=
  [1116352408, 1899447441, 3049323471, 3921009573, 961987163,
   1508970993, 2453635748, 2870763221, 3624381080, 310598401,
   607225278, 1426881987, 1925078388, 2162078206, 2614888103,
   3248222580, 3835390401, 4022224774, 264347078, 604807628,
   770255983, 1249150122, 1555081692, 1996064986, 2554220882,
   2821834349, 2952996808, 3210313671, 3336571891, 3584528711,
   113926993, 338241895, 666307205, 773529912, 1294757372,
   1396182291, 1695183700, 1986661051, 2177026350, 2456956037,
   2730485921, 2820302411, 3259730800, 3345764771, 3516065817,
   3600352804, 4094571909, 275423344, 430227734, 506948616,
   659060556, 883997877, 958139571, 1322822218, 1537002063,
   1747873779, 1955562222, 2024104815, 2227730452, 2361852424,
   2428436474, 2756734187, 3204031479, 3329325298]

/-- SHA-256 initial hash value. -/
def shaInit : List Nat :=
  [1779033703, 3144134277, 1013904242, 2773480762,
   1359893119, 2600822924, 528734635, 1541459225]

/-- UTF-8 encoding of one character. -/
def utf8Bytes (c : Char) : List Nat :=
  let n := c.toNat
  if n < 128 then [n]
  else if n < 2048 then [192 + n / 64, 128 + n % 64]
  else if n < 65536 then [224 + n / 4096, 128 + (n / 64) % 64, 128 + n % 64]
  else [240 + n / 262144, 128 + (n / 4096) % 64, 128 + (n / 64) % 64, 128 + n % 64]

/-- UTF-8 bytes of a string (Go strings are UTF-8 byte sequences). -/
def strBytes (s : String) : List Nat := (s.data.map utf8Bytes).flatten

/-- Big-endian 64-bit encoding. -/
def be8 (n : Nat) : List Nat :=
  [n / 2 ^ 56 % 256, n / 2 ^ 48 % 256, n / 2 ^ 40 % 256, n / 2 ^ 32 % 256,
   n / 2 ^ 24 % 256, n / 2 ^ 16 % 256, n / 2 ^ 8 % 256, n % 256]

/-- Big-endian 32-bit encoding. -/
def be4 (n : Nat) : List Nat :=
  [n / 16777216 % 256, n / 65536 % 256, n / 256 % 256, n % 256]

/-- SHA-256 padding: a 0x80 byte, zeros to 56 mod 64, the bit length. -/
def padMsg (m : List Nat) : List Nat :=
  m ++ 128 :: List.replicate ((119 - m.length % 64) % 64) 0 ++ be8 (8 * m.length)

/-- Split into 64-byte chunks (fuel is the length; each step consumes at
least one byte). -/
def chunksF : Nat → List Nat → List (List Nat)
  | _, [] => []
  | 0, _ => []
  | fuel + 1, l => l.take 64 :: chunksF fuel (l.drop 64)

/-- Chunking entry point. -/
def chunks64 (l : List Nat) : List (List Nat) := chunksF l.length l

/-- Big-endian 32-bit words of a chunk. -/
def toWords : List Nat → List Nat
  | b0 :: b1 :: b2 :: b3 :: rest =>
    (b0 * 16777216 + b1 * 65536 + b2 * 256 + b3) :: toWords rest
  | _ => []

/-- One step of the message-schedule extension. -/
def stepW (ws : List Nat) : List Nat :=
  let n := ws.length
  ws ++ [w32 (smallSigma1 (ws.getD (n - 2) 0) + ws.getD (n - 7) 0 +
    smallSigma0 (ws.getD (n - 15) 0) + ws.getD (n - 16) 0)]

/-- Extend the schedule by `k` words. -/
def extendW (ws : List Nat) : Nat → List Nat
  | 0 => ws
  | k + 1 => extendW (stepW ws) k

/-- One compression round over state `[a,b,c,d,e,f,g,h]`. -/
def compressStep (st : List Nat) (kw : Nat × Nat) : List Nat :=
  let a := st.getD 0 0
  let b := st.getD 1 0
  let c := st.getD 2 0
  let d := st.getD 3 0
  let e := st.getD 4 0
  let f := st.getD 5 0
  let g := st.getD 6 0
  let h := st.getD 7 0
  let t1 := w32 (h + bigSigma1 e + chFn e f g + kw.1 + kw.2)
  let t2 := w32 (bigSigma0 a + majFn a b c)
  [w32 (t1 + t2), a, b, c, w32 (d + t1), e, f, g]

/-- Compress one 64-byte block into the running hash value. -/
def compressBlock (hv : List Nat) (block : List Nat) : List Nat :=
  let ws := extendW (toWords block) 48
  let st := (shaK.zip ws).foldl compressStep hv
  (hv.zip st).map (fun p => w32 (p.1 + p.2))

/-- SHA-256 digest (32 bytes) of a byte sequence. -/
def sha256Bytes (msg : List Nat) : List Nat :=
  let hs := (chunks64 (padMsg msg)).foldl compressBlock shaInit
  (hs.map be4).flatten

/-- Lowercase hex digit. -/
def hexDigit (n : Nat) : Char :=
  if n < 10 then Char.ofNat (48 + n) else Char.ofNat (87 + n)

/-- Two lowercase hex characters of a byte (`hex.EncodeToString`). -/
def hexByte (b : Nat) : List Char := [hexDigit (b / 16), hexDigit (b % 16)]

/-- Embeds `generateOperationID` (openapi.go, lines 331-337):
`hex.EncodeToString(sha256.Sum256(specID + ":" + method + ":" + path)[:16])`. -/
def generateOperationID (specID method p : String) : String :=
  ⟨(((sha256Bytes (strBytes (specID ++ ":" ++ method ++ ":" ++ p))).take 16).map
      hexByte).flatten⟩

theorem foldl_compressStep_length (pairs : List (Nat × Nat)) :
    ∀ st : List Nat, st.length = 8 → (pairs.foldl compressStep st).length = 8 := by
  induction pairs with
  | nil => intro st h; exact h
  | cons p ps ih => intro st _; exact ih (compressStep st p) rfl

theorem compressBlock_length (hv block : List Nat) (h : hv.length = 8) :
    (compressBlock hv block).length = 8 := by
  rw [compressBlock]
  rw [List.length_map, List.length_zip,
    foldl_compressStep_length _ hv h, h]
  rfl

theorem foldl_compressBlock_length (blocks : List (List Nat)) :
    ∀ hv : List Nat, hv.length = 8 → (blocks.foldl compressBlock hv).length = 8 := by
  induction blocks with
  | nil => intro hv h; exact h
  | cons b bs ih => intro hv h; exact ih (compressBlock hv b) (compressBlock_length hv b h)

theorem flat_map_be4_length (l : List Nat) : ((l.map be4).flatten).length = 4 * l.length := by
  induction l with
  | nil => rfl
  | cons a as ih =>
    simp only [List.map_cons, List.flatten_cons, List.length_append, ih, List.length_cons]
    show 4 + 4 * as.length = 4 * (as.length + 1)
    omega

theorem flat_map_hexByte_length (l : List Nat) :
    ((l.map hexByte).flatten).length = 2 * l.length := by
  induction l with
  | nil => rfl
  | cons a as ih =>
    simp only [List.map_cons, List.flatten_cons, List.length_append, ih, List.length_cons]
    show 2 + 2 * as.length = 2 * (as.length + 1)
    omega

theorem sha256Bytes_length (msg : List Nat) : (sha256Bytes msg).length = 32 := by
  rw [sha256Bytes]
  rw [flat_map_be4_length,
    foldl_compressBlock_length (chunks64 (padMsg msg)) shaInit rfl]

/-- Claim C10: the operation id is a deterministic pure function of
`(specId, method, pathPattern)` — identical triples yield the identical
32-hex-character id on every invocation, so regenerating operations after a
restart reproduces the same ids. -/
theorem c10_operation_id_deterministic (s1 m1 p1 s2 m2 p2 : String)
    (hs : s1 = s2) (hm : m1 = m2) (hp : p1 = p2) :
    generateOperationID s1 m1 p1 = generateOperationID s2 m2 p2 ∧
    (generateOperationID s1 m1 p1).length = 32 := by
  subst hs
  subst hm
  subst hp
  refine ⟨rfl, ?_⟩
  show ((((sha256Bytes (strBytes (s1 ++ ":" ++ m1 ++ ":" ++ p1))).take 16).map
      hexByte).flatten).length = 32
  rw [flat_map_hexByte_length, List.length_take, sha256Bytes_length]
  rfl

/-- Witness for C10 at a concrete triple. -/
theorem c10_operation_id_deterministic_witness :
    generateOperationID "spec-1" "GET" "/users/\x7bid\x7d" =
      generateOperationID "spec-1" "GET" "/users/\x7bid\x7d" ∧
    (generateOperationID "spec-1" "GET" "/users/\x7bid\x7d").length = 32 :=
  c10_operation_id_deterministic "spec-1" "GET" "/users/\x7bid\x7d"
    "spec-1" "GET" "/users/\x7bid\x7d" rfl rfl rfl

end GoVirtual
